import Mathlib

/-!
Verification of the retrieval, scoring, graph-traversal and multi-agent
orchestration core of the Electric_RAG repository, as a shallow embedding
of the Python sources under backend/app/services/.

Conventions of the embedding:
* Python floats that carry scores are modelled as rationals.
* Python strings are Lean strings; Python str.lower / str.upper on the
  ASCII tags manipulated by this code are modelled by Char.toLower /
  Char.toUpper mapped over the character data.
* Database reads are modelled by passing the row lists (or, for the
  aggregation code, the per-source result lists) as explicit arguments.
* Python sets are modelled by lists with explicit membership tests, and
  dicts with a default by total functions.
-/

namespace ElectricRag

/-! ## AliasService — backend/app/services/alias_service.py -/

/-- Characters removed by the regular expression [-_\s.] in
AliasService.normalize_tag: the separators dash, underscore, dot and
whitespace. -/
def isSeparator (c : Char) : Bool :=
  c = '-' || c = '_' || c = '.' || c.isWhitespace

/-- AliasService.normalize_tag (alias_service.py lines 18-23):
returns "" for a falsy tag, otherwise lower-cases the tag and removes
every separator character. -/
def normalize_tag (tag : String) : String :=
  if tag = "" then ""
  else ⟨(tag.data.map Char.toLower).filter (fun c => !(isSeparator c))⟩

/-- Python str.upper on the character data, the model of .upper() used
throughout this embedding (the code applies it to ASCII equipment tags;
the data-level definition, unlike String.toUpper, reduces in the kernel,
which the concrete scenario theorems rely on). -/
def pyUpper (s : String) : String := ⟨s.data.map Char.toUpper⟩

/-- Python str.lower on the character data, the model of .lower(). -/
def pyLower (s : String) : String := ⟨s.data.map Char.toLower⟩

/-- An Equipment row as consumed by AliasService.fuzzy_match: its id, its
canonical tag, and the alias strings of its EquipmentAlias children. -/
structure EquipmentRec where
  id : Nat
  tag : String
  aliases : List String
deriving Repr, DecidableEq

/-- Score of one candidate inside the fuzzy_match loop: the similarity
ratio of the normalized query tag against the normalized candidate tag,
maximized with the ratio against each normalized alias
(alias_service.py lines 42-51). The fuzzywuzzy ratio function is an
external library call and is passed in as a parameter. -/
def candidateScore (ratio : String → String → Nat) (normalized : String)
    (eq : EquipmentRec) : Nat :=
  eq.aliases.foldl (fun s a => max s (ratio normalized (normalize_tag a)))
    (ratio normalized (normalize_tag eq.tag))

/-- AliasService.fuzzy_match (alias_service.py lines 25-60): returns a
pair of the best-matching equipment id (or none) and the best similarity
observed, scaled from the 0-100 integer range to 0.0-1.0. A match is
returned only when the best score reaches MATCH_THRESHOLD = 85.
In the source, `best_match.id` is read only under `best_score >= 85`,
where the loop has necessarily set `best_match`; the embedding writes
this as Option.map. -/
def fuzzy_match (ratio : String → String → Nat) (tag : String)
    (equipment_list : List EquipmentRec) : Option Nat × ℚ :=
  if tag = "" ∨ equipment_list = [] then (none, 0)
  else
    let normalized := normalize_tag tag
    let best := equipment_list.foldl
      (fun acc eq =>
        let s := candidateScore ratio normalized eq
        if s > acc.2 then (some eq, s) else acc)
      ((none : Option EquipmentRec), 0)
    if best.2 ≥ 85 then (best.1.map (·.id), (best.2 : ℚ) / 100)
    else (none, (best.2 : ℚ) / 100)

/-- The highest similarity score the fuzzy_match loop observes over all
candidates (including their aliases): the maximum of candidateScore over
the equipment list, starting from best_score = 0. -/
def bestScoreObserved (ratio : String → String → Nat) (tag : String)
    (equipment_list : List EquipmentRec) : Nat :=
  equipment_list.foldl
    (fun b eq => max b (candidateScore ratio (normalize_tag tag) eq)) 0

/-! ### Character-level facts used for normalize_tag -/

theorem char_toNat_ofNat_valid (n : Nat) (h : n.isValidChar) :
    (Char.ofNat n).toNat = n := by
  simp only [Char.ofNat, h, dite_true]
  rfl

theorem char_toLower_toNat (c : Char) :
    (Char.toLower c).toNat = if c.toNat ≥ 65 ∧ c.toNat ≤ 90 then c.toNat + 32 else c.toNat := by
  simp only [Char.toLower]
  by_cases h : c.toNat ≥ 65 ∧ c.toNat ≤ 90
  · rw [if_pos h, if_pos h]
    exact char_toNat_ofNat_valid _ (Or.inl (by omega))
  · rw [if_neg h, if_neg h]

theorem char_toLower_idem (c : Char) : c.toLower.toLower = c.toLower := by
  have h1 := char_toLower_toNat c
  by_cases h : c.toNat ≥ 65 ∧ c.toNat ≤ 90
  · rw [if_pos h] at h1
    have : ¬(c.toLower.toNat ≥ 65 ∧ c.toLower.toNat ≤ 90) := by omega
    simp only [Char.toLower] at *
    rw [if_neg this]
  · rw [if_neg h] at h1
    have : ¬(c.toLower.toNat ≥ 65 ∧ c.toLower.toNat ≤ 90) := by omega
    simp only [Char.toLower] at *
    rw [if_neg this]

theorem char_isUpper_iff (c : Char) :
    c.isUpper = true ↔ 65 ≤ c.toNat ∧ c.toNat ≤ 90 := by
  simp only [Char.isUpper, Bool.and_eq_true, decide_eq_true_eq]
  rfl

theorem char_toLower_not_upper (a : Char) : (Char.toLower a).isUpper = false := by
  have h1 := char_toLower_toNat a
  by_cases h : (Char.toLower a).isUpper = true
  · exfalso
    have h2 := (char_isUpper_iff _).mp h
    by_cases h3 : a.toNat ≥ 65 ∧ a.toNat ≤ 90 <;>
      [rw [if_pos h3] at h1; rw [if_neg h3] at h1] <;> omega
  · exact Bool.not_eq_true _ |>.mp h

/-- C10: AliasService.normalize_tag is idempotent, and its output never
contains a separator (dash, underscore, dot, whitespace) or an uppercase
letter; comparisons of normalized tags are therefore insensitive to
separator and case differences in the raw tags. -/
theorem normalize_tag_idempotent (t : String) :
    normalize_tag (normalize_tag t) = normalize_tag t ∧
    ∀ c ∈ (normalize_tag t).data,
      isSeparator c = false ∧ c.isUpper = false := by
  have hmem : ∀ c ∈ (normalize_tag t).data, (∃ a, c = Char.toLower a) ∧ isSeparator c = false := by
    intro c hc
    by_cases h : t = ""
    · simp [normalize_tag, h] at hc
    · simp only [normalize_tag, if_neg h] at hc
      have hc' : c ∈ (t.data.map Char.toLower).filter (fun c => !(isSeparator c)) := hc
      have h1 := List.of_mem_filter hc'
      have h2 := List.mem_filter.mp hc' |>.1
      obtain ⟨a, _, ha⟩ := List.mem_map.mp h2
      exact ⟨⟨a, ha.symm⟩, by simpa using h1⟩
  refine ⟨?_, fun c hc => ⟨(hmem c hc).2, ?_⟩⟩
  · by_cases h2 : normalize_tag t = ""
    · rw [h2]
      simp [normalize_tag]
    · have hmap : (normalize_tag t).data.map Char.toLower = (normalize_tag t).data := by
        have := List.map_congr_left (l := (normalize_tag t).data)
          (f := Char.toLower) (g := id) (fun c hc => by
            obtain ⟨⟨a, ha⟩, _⟩ := hmem c hc
            rw [ha, char_toLower_idem, id_eq])
        simpa using this
      have hdata : ((normalize_tag t).data.map Char.toLower).filter
          (fun c => !(isSeparator c)) = (normalize_tag t).data := by
        rw [hmap]
        apply List.filter_eq_self.mpr
        intro c hc
        simp [(hmem c hc).2]
      have hunfold : normalize_tag (normalize_tag t)
          = (⟨((normalize_tag t).data.map Char.toLower).filter (fun c => !(isSeparator c))⟩ : String) := by
        rw [normalize_tag]
        exact if_neg h2
      rw [hunfold, hdata]
  · obtain ⟨⟨a, ha⟩, _⟩ := hmem c hc
    rw [ha]
    exact char_toLower_not_upper a

theorem fuzzy_fold_snd (ratio : String → String → Nat) (normalized : String)
    (l : List EquipmentRec) (acc : Option EquipmentRec × Nat) :
    (l.foldl (fun acc eq =>
        let s := candidateScore ratio normalized eq
        if s > acc.2 then (some eq, s) else acc) acc).2
      = l.foldl (fun b eq => max b (candidateScore ratio normalized eq)) acc.2 := by
  induction l generalizing acc with
  | nil => rfl
  | cons e es ih =>
    simp only [List.foldl_cons]
    rw [ih]
    congr 1
    dsimp only
    split <;> omega

theorem ratioFold_zero_or_hundred (ratio : String → String → Nat)
    (hr : ∀ s, ratio "" s = if s = "" then 100 else 0)
    (l : List String) (b : Nat) (hb : b = 0 ∨ b = 100) :
    l.foldl (fun s a => max s (ratio "" (normalize_tag a))) b = 0 ∨
    l.foldl (fun s a => max s (ratio "" (normalize_tag a))) b = 100 := by
  induction l generalizing b with
  | nil => exact hb
  | cons a as ih =>
    simp only [List.foldl_cons]
    apply ih
    rw [hr]
    rcases hb with hb | hb <;> rw [hb] <;> split <;> omega

theorem candidateScore_empty_tag (ratio : String → String → Nat)
    (hr : ∀ s, ratio "" s = if s = "" then 100 else 0) (eq : EquipmentRec) :
    candidateScore ratio "" eq = 0 ∨ candidateScore ratio "" eq = 100 := by
  unfold candidateScore
  apply ratioFold_zero_or_hundred ratio hr
  rw [hr]
  split <;> omega

theorem bestScoreObserved_empty_tag (ratio : String → String → Nat)
    (hr : ∀ s, ratio "" s = if s = "" then 100 else 0) (l : List EquipmentRec) :
    bestScoreObserved ratio "" l = 0 ∨ bestScoreObserved ratio "" l = 100 := by
  unfold bestScoreObserved
  have : ∀ b : Nat, b = 0 ∨ b = 100 →
      l.foldl (fun b eq => max b (candidateScore ratio (normalize_tag "") eq)) b = 0 ∨
      l.foldl (fun b eq => max b (candidateScore ratio (normalize_tag "") eq)) b = 100 := by
    induction l with
    | nil => exact fun b hb => hb
    | cons e es ih =>
      intro b hb
      simp only [List.foldl_cons]
      apply ih
      have he := candidateScore_empty_tag ratio hr e
      have hnorm : normalize_tag "" = "" := rfl
      rw [hnorm]
      rcases hb with hb | hb <;> rcases he with he | he <;> rw [hb, he] <;> omega
  exact this 0 (Or.inl rfl)

/-- C7: AliasService.fuzzy_match returns a non-null match only with
similarity at least 0.85, and when the best similarity observed over all
candidates (including aliases) is below 0.85 it returns
(null, bestScoreObserved). The fuzzywuzzy ratio is a parameter; the
hypothesis records its behaviour on an empty normalized input (the ratio
of an empty string against a non-empty string is 0, against another
empty string 100), which both fuzzywuzzy backends satisfy. -/
theorem fuzzy_match_spec (ratio : String → String → Nat) (tag : String)
    (equipment_list : List EquipmentRec)
    (hr : ∀ s, ratio "" s = if s = "" then 100 else 0) :
    (∀ i conf, fuzzy_match ratio tag equipment_list = (some i, conf) →
      (85 : ℚ) / 100 ≤ conf) ∧
    ((bestScoreObserved ratio tag equipment_list : ℚ) / 100 < (85 : ℚ) / 100 →
      fuzzy_match ratio tag equipment_list
        = (none, (bestScoreObserved ratio tag equipment_list : ℚ) / 100)) := by
  have hcast : ∀ a : Nat, ((a : ℚ) / 100 < (85 : ℚ) / 100 ↔ a < 85) := by
    intro a
    rw [div_lt_div_iff_of_pos_right (by norm_num : (0:ℚ) < 100)]
    exact_mod_cast Iff.rfl
  by_cases hguard : tag = "" ∨ equipment_list = []
  · have hres : fuzzy_match ratio tag equipment_list = (none, 0) := by
      unfold fuzzy_match
      rw [if_pos hguard]
    constructor
    · intro i conf h
      rw [hres] at h
      exact absurd (congrArg Prod.fst h) (by simp)
    · intro hlt
      rw [hres]
      have h0 : bestScoreObserved ratio tag equipment_list = 0 := by
        rcases hguard with hguard | hguard
        · subst hguard
          rcases bestScoreObserved_empty_tag ratio hr equipment_list with h | h
          · exact h
          · rw [hcast] at hlt
            omega
        · subst hguard
          rfl
      rw [h0]
      norm_num
  · push_neg at hguard
    have hbest : (equipment_list.foldl (fun acc eq =>
        let s := candidateScore ratio (normalize_tag tag) eq
        if s > acc.2 then (some eq, s) else acc)
        ((none : Option EquipmentRec), 0)).2
          = bestScoreObserved ratio tag equipment_list := by
      rw [fuzzy_fold_snd]
      rfl
    have hmatch : fuzzy_match ratio tag equipment_list =
        (if (bestScoreObserved ratio tag equipment_list) ≥ 85 then
          ((equipment_list.foldl (fun acc eq =>
            let s := candidateScore ratio (normalize_tag tag) eq
            if s > acc.2 then (some eq, s) else acc)
            ((none : Option EquipmentRec), 0)).1.map (·.id),
            (bestScoreObserved ratio tag equipment_list : ℚ) / 100)
        else (none, (bestScoreObserved ratio tag equipment_list : ℚ) / 100)) := by
      unfold fuzzy_match
      rw [if_neg (by push_neg; exact hguard)]
      rw [← hbest]
    constructor
    · intro i conf h
      rw [hmatch] at h
      by_cases hge : bestScoreObserved ratio tag equipment_list ≥ 85
      · rw [if_pos hge] at h
        have hconf : conf = (bestScoreObserved ratio tag equipment_list : ℚ) / 100 :=
          (congrArg Prod.snd h).symm
        rw [hconf]
        apply div_le_div_of_nonneg_right ?_ (by norm_num) |>.trans_eq rfl
        · exact_mod_cast hge
      · rw [if_neg hge] at h
        exact absurd (congrArg Prod.fst h) (by simp)
    · intro hlt
      rw [hcast] at hlt
      rw [hmatch, if_neg (by omega)]

/-- Witness for C7: a concrete ratio function, tag and candidate list on
which the below-threshold branch of fuzzy_match_spec is exercised. -/
theorem fuzzy_match_spec_witness :
    fuzzy_match (fun a b => if b = a then 100 else 0) "x" [⟨1, "y", []⟩]
      = (none, (bestScoreObserved (fun a b => if b = a then 100 else 0) "x"
          [⟨1, "y", []⟩] : ℚ) / 100) :=
  (fuzzy_match_spec (fun a b => if b = a then 100 else 0) "x" [⟨1, "y", []⟩]
    (fun _ => rfl)).2 (by
      have h : bestScoreObserved (fun a b => if b = a then 100 else 0) "x"
          [⟨1, "y", []⟩] = 0 := by decide
      rw [h]
      norm_num)

/-! ## SearchService — backend/app/services/search_service.py -/

/-- QueryType enum from app/models/schemas.py. -/
inductive QueryType where
  | EQUIPMENT_LOOKUP
  | RELATIONSHIP
  | UPSTREAM_DOWNSTREAM
  | WIRE_TRACE
  | GENERAL
deriving Repr, DecidableEq

/-- EquipmentBrief from app/models/schemas.py. -/
structure EquipmentBrief where
  id : Nat
  tag : String
  equipmentType : String
deriving Repr, DecidableEq

/-- A SearchResult as consumed by the aggregation, scoring and ordering
code of SearchService.search. The DocumentResponse payload is projected
to the document id, the only document field those code paths consult
(dedup keys and the per-document quota). Optional string fields that the
source tests for truthiness are Option String. -/
structure SearchResult where
  equipment : Option EquipmentBrief
  documentId : Nat
  pageNumber : Nat
  relevanceScore : ℚ
  snippet : Option String
  matchType : String
  sourceLocation : Option String
deriving Repr, DecidableEq

/-- The second component of a dedup key: either a source-location string
or a page number. A Python tuple holding a str is never equal to one
holding an int, modelled by the two constructors. -/
inductive LocKey where
  | strLoc (s : String)
  | pageLoc (n : Nat)
deriving Repr, DecidableEq

/-- The deduplication key built in search.add_result (lines 529-533):
(document id, source_location) when source_location is truthy, otherwise
(document id, page_number). -/
def dedupKey (r : SearchResult) : Nat × LocKey :=
  match r.sourceLocation with
  | some s => if s = "" then (r.documentId, LocKey.pageLoc r.pageNumber)
              else (r.documentId, LocKey.strLoc s)
  | none => (r.documentId, LocKey.pageLoc r.pageNumber)

/-- The request-local aggregation state of SearchService.search:
all_results, existing_keys (a Python set, modelled as a list) and
document_counts (a dict with default 0, modelled as a total function). -/
structure AggState where
  allResults : List SearchResult
  existingKeys : List (Nat × LocKey)
  documentCounts : Nat → Nat

def initialAggState : AggState := ⟨[], [], fun _ => 0⟩

/-- search.add_result (lines 522-547): drop the result if its dedup key
was already seen; unless skip_doc_limit, drop it if its document already
reached max_per_document; otherwise record key, bump the document count
and append the result. Returns the new state and whether it was added. -/
def add_result (max_per_document : Nat) (st : AggState) (result : SearchResult)
    (skip_doc_limit : Bool) : AggState × Bool :=
  let key : Nat × LocKey := dedupKey result
  if key ∈ st.existingKeys then (st, false)
  else if !skip_doc_limit && decide (st.documentCounts result.documentId ≥ max_per_document)
  then (st, false)
  else
    ({ allResults := st.allResults ++ [result],
       existingKeys := key :: st.existingKeys,
       documentCounts := fun d =>
         if d = result.documentId then st.documentCounts d + 1
         else st.documentCounts d },
     true)

/-- One iteration of the equipment-type pass of search (lines 588-596):
the first result for a truthy, not-yet-included equipment tag is added
with skip_doc_limit=true and on success the tag is recorded; every other
result goes through add_result with the normal limits. -/
def typeStep (m : Nat) (acc : AggState × List String) (r : SearchResult) :
    AggState × List String :=
  match r.equipment with
  | some e =>
    if e.tag ≠ "" ∧ e.tag ∉ acc.2 then
      let res := add_result m acc.1 r true
      (res.1, if res.2 then e.tag :: acc.2 else acc.2)
    else ((add_result m acc.1 r false).1, acc.2)
  | none => ((add_result m acc.1 r false).1, acc.2)

/-- The full equipment-type pass: fold typeStep over the type-search
results, starting from an empty included_equipment_tags set. -/
def addTypeResults (m : Nat) (typeResults : List SearchResult) (st : AggState) :
    AggState × List String :=
  typeResults.foldl (typeStep m) (st, [])

/-- Lines 597-600: append the tag of each type-search result that is not
already among the equipment tags. -/
def appendTypeTags (typeResults : List SearchResult) (tags : List String) :
    List String :=
  typeResults.foldl (fun acc r =>
    match r.equipment with
    | some e => if e.tag ∉ acc then acc ++ [e.tag] else acc
    | none => acc) tags

/-- A non-bypassing source pass: add every result through add_result with
the normal limits (the loops at lines 602-639). -/
def addAll (m : Nat) (results : List SearchResult) (st : AggState) : AggState :=
  results.foldl (fun st r => (add_result m st r false).1) st

/-- The match-type multiplier table of _calculate_relevance_score
(lines 437-445); unknown match types default to 1.0. -/
def match_type_multiplier (match_type : String) : ℚ :=
  if match_type = "exact" then 3/2
  else if match_type = "text_search" then 13/10
  else if match_type = "semantic" then 1
  else if match_type = "keyword" then 4/5
  else if match_type = "supplementary_semantic" then 11/10
  else if match_type = "equipment_data" then 7/5
  else 1

/-- The stop-word set removed from the query words (line 472). -/
def stopWords : List String :=
  ["what", "where", "is", "the", "a", "an", "and", "or", "for", "to", "of", "in", "on"]

/-- Python substring membership, sub in s, on the character data. -/
def strContains (s sub : String) : Bool :=
  s.data.tails.any (fun t => sub.data.isPrefixOf t)

/-- query.lower().split() as a set (line 470): whitespace-separated
words, empties dropped, duplicates removed. -/
def queryWords (query : String) : List String :=
  (((pyLower query).split (fun c => c.isWhitespace)).filter (fun w => w ≠ "")).dedup

/-- The data types aligned with each query type (lines 457-463). -/
def alignedDataTypes : QueryType → List String
  | .EQUIPMENT_LOOKUP => ["SPECIFICATION", "SCHEDULE_ENTRY"]
  | .RELATIONSHIP => ["SPECIFICATION"]
  | .UPSTREAM_DOWNSTREAM => ["SPECIFICATION"]
  | .WIRE_TRACE => ["IO_POINT"]
  | .GENERAL => []

/-- Factor 2 of _calculate_relevance_score (lines 448-452): the 1.3
boost when the result carries one of the queried equipment tags (both
guards are truthiness tests in the source). -/
def applyTagBoost (score : ℚ) (result_equipment_tag : Option String)
    (equipment_tags : List String) : ℚ :=
  match result_equipment_tag with
  | some t =>
    if t ≠ "" ∧ equipment_tags ≠ [] ∧
        equipment_tags.any (fun et => pyUpper t = pyUpper et)
    then score * (13/10) else score
  | none => score

/-- Factor 3 of _calculate_relevance_score (lines 454-466): the 1.2
boost when the structured data type aligns with the query type. -/
def applyDataBoost (score : ℚ) (query_type : QueryType)
    (data_type : Option String) : ℚ :=
  match data_type with
  | some dt =>
    if dt ≠ "" ∧ dt ∈ alignedDataTypes query_type then score * (6/5) else score
  | none => score

/-- Factor 4 of _calculate_relevance_score (lines 468-479): the
keyword-overlap boost min(1 + matches*0.1, 1.5), applied only when at
least one non-stop-word query word occurs in the snippet. -/
def applyKeywordBoost (score : ℚ) (query : String) (snippet : Option String) : ℚ :=
  match snippet with
  | some s =>
    if s ≠ "" then
      let words := (queryWords query).filter (fun w => w ∉ stopWords)
      let nmatches := words.countP (fun w => strContains (pyLower s) w)
      if nmatches > 0 then score * min (1 + (nmatches : ℚ) * (1/10)) (3/2)
      else score
    else score
  | none => score

/-- Factor 5 of _calculate_relevance_score (lines 481-486): 0.8 penalty
for snippets under 50 characters, 1.1 reward above 200. -/
def applySnippetFactor (score : ℚ) (snippet : Option String) : ℚ :=
  match snippet with
  | some s =>
    if s ≠ "" then
      if s.length < 50 then score * (4/5)
      else if s.length > 200 then score * (11/10)
      else score
    else score
  | none => score

/-- SearchService._calculate_relevance_score (lines 413-489): the base
score times the match-type multiplier, then the equipment-tag boost,
the data-type alignment boost, the keyword-overlap boost and the
snippet-length factor, finally capped at 2.0 by min. -/
def calculate_relevance_score (base_score : ℚ) (match_type : String)
    (query : String) (query_type : QueryType) (equipment_tags : List String)
    (result_equipment_tag : Option String) (snippet : Option String)
    (data_type : Option String) : ℚ :=
  let score1 := base_score * match_type_multiplier match_type
  let score2 := applyTagBoost score1 result_equipment_tag equipment_tags
  let score3 := applyDataBoost score2 query_type data_type
  let score4 := applyKeywordBoost score3 query snippet
  let score5 := applySnippetFactor score4 snippet
  min score5 2

/-- Lines 644-651: for an equipment_data result with a truthy snippet,
the first of the five structured data types contained in the upper-cased
snippet. -/
def extractDataType (r : SearchResult) : Option String :=
  if r.matchType = "equipment_data" then
    match r.snippet with
    | some s =>
      if s ≠ "" then
        ["SPECIFICATION", "IO_POINT", "ALARM", "SCHEDULE_ENTRY", "SEQUENCE"].find?
          (fun dt => strContains (pyUpper s) dt)
      else none
    | none => none
  else none

/-- Lines 653-664: replace a result's relevance score by the enhanced
score. -/
def rescoreResult (query : String) (query_type : QueryType)
    (equipment_tags : List String) (r : SearchResult) : SearchResult :=
  let newScore := calculate_relevance_score r.relevanceScore r.matchType query
    query_type equipment_tags (r.equipment.map (·.tag)) r.snippet (extractDataType r)
  { r with relevanceScore := newScore }

/-- The outputs of the six source searches plus the equipment-type
search, which in the source are database / vector-index reads
(_search_equipment_by_type, _exact_equipment_search,
_text_search_for_equipment, _semantic_search, _keyword_search,
_search_supplementary_chunks, _search_equipment_data). -/
structure SourceResults where
  typeResults : List SearchResult
  exactResults : List SearchResult
  textResults : List SearchResult
  semanticResults : List SearchResult
  keywordResults : List SearchResult
  suppChunkResults : List SearchResult
  eqDataResults : List SearchResult

/-- The response of SearchService.search restricted to the fields the
verified properties concern. -/
structure SearchResponse where
  queryType : QueryType
  results : List SearchResult
  totalCount : Nat
deriving Repr, DecidableEq

/-- The aggregation portion of SearchService.search (lines 511-639): the
equipment-type pass with its per-tag bypass and tag appending, then the
six source passes (exact, text, semantic, keyword, supplementary chunks
and equipment data; the passes over tag-driven sources run only when the
tag list is non-empty, mirroring the `if equipment_tags:` guards).
Returns the aggregation state and the updated equipment-tag list. -/
def searchAggregate (equipment_tags : List String)
    (detected_equipment_type : Option String) (src : SourceResults)
    (max_per_document : Nat) : AggState × List String :=
  let isTypeQuery : Bool := match detected_equipment_type with
    | some dt => decide (dt ≠ "")
    | none => false
  let s0 :=
    if isTypeQuery then
      let p := addTypeResults max_per_document src.typeResults initialAggState
      (p.1, appendTypeTags src.typeResults equipment_tags)
    else (initialAggState, equipment_tags)
  let tags := s0.2
  let st1 := if tags ≠ [] then addAll max_per_document src.exactResults s0.1 else s0.1
  let st2 := if tags ≠ [] then addAll max_per_document src.textResults st1 else st1
  let st3 := addAll max_per_document src.semanticResults st2
  let st4 := addAll max_per_document src.keywordResults st3
  let st5 := addAll max_per_document src.suppChunkResults st4
  let st6 := if tags ≠ [] then addAll max_per_document src.eqDataResults st5 else st5
  (st6, tags)

/-- SearchService.search (lines 491-683), with the query-dependent
database and LLM reads passed as arguments: query_type is the
classify_query output, equipment_tags the alias-expanded tag list of
lines 549-568, detected_equipment_type the _detect_equipment_type_query
output, and src the per-source result lists: aggregation, then the
enhanced scoring pass, the stable descending sort by score, and the
truncation to limit. -/
def search (query : String) (query_type : QueryType)
    (equipment_tags : List String) (detected_equipment_type : Option String)
    (src : SourceResults) (limit : Nat) (max_per_document : Nat) :
    SearchResponse :=
  let agg := searchAggregate equipment_tags detected_equipment_type src max_per_document
  let scored := agg.1.allResults.map (rescoreResult query query_type agg.2)
  let sorted := scored.mergeSort (fun a b => decide (b.relevanceScore ≤ a.relevanceScore))
  { queryType := query_type, results := sorted.take limit, totalCount := sorted.length }

/-- An Equipment table row as read by
SearchService.expand_equipment_tags_with_aliases. -/
structure EquipmentRow where
  id : Nat
  tag : String
  projectId : Nat
deriving Repr, DecidableEq

/-- An EquipmentAlias table row; aliasStr is the alias column (alias is
a reserved word in Lean). -/
structure AliasRow where
  equipmentId : Nat
  aliasStr : String
deriving Repr, DecidableEq

/-- The two tables expand_equipment_tags_with_aliases reads. -/
structure TagDb where
  equipments : List EquipmentRow
  aliases : List AliasRow

/-- Python truthiness of the optional project_id argument: the project
filter is applied only under `if project_id:`, so None and 0 disable it. -/
def projTruthy : Option Nat → Bool
  | none => false
  | some p => p ≠ 0

/-- Insertion into a Python set, modelled as append-if-absent so that a
set is a duplicate-free list in insertion order; the property verified
below does not depend on the iteration order of the set. -/
def insertSet (l : List String) (s : String) : List String :=
  if s ∈ l then l else l ++ [s]

/-- SearchService.expand_equipment_tags_with_aliases (lines 159-213):
starting from the set of the original tags, add the upper-cased aliases
of each tag that is a canonical equipment tag, and for each tag that is
an alias add the canonical tag and its other aliases, all upper-cased;
finally return the original tags followed by every member of the set
whose value is not among the upper-cased entries of the list built so
far. -/
def expand_equipment_tags_with_aliases (db : TagDb) (tags : List String)
    (project_id : Option Nat) : List String :=
  let expanded := tags.foldl (fun acc tag =>
    let tag_upper := pyUpper tag
    let acc1 :=
      match (db.equipments.filter (fun e => pyUpper e.tag = tag_upper ∧
          (projTruthy project_id = false ∨ e.projectId = project_id.getD 0))).head? with
      | some equipment =>
        (db.aliases.filter (fun a => a.equipmentId = equipment.id)).foldl
          (fun acc a => insertSet acc (pyUpper a.aliasStr)) acc
      | none => acc
    let alias_matches := db.aliases.filter (fun a => pyUpper a.aliasStr = tag_upper)
    alias_matches.foldl (fun acc am =>
      match (db.equipments.filter (fun e => e.id = am.equipmentId)).head? with
      | some eq =>
        let acc2 := insertSet acc (pyUpper eq.tag)
        (db.aliases.filter (fun a => a.equipmentId = eq.id)).foldl
          (fun acc a => insertSet acc (pyUpper a.aliasStr)) acc2
      | none => acc) acc1)
    (tags.foldl insertSet [])
  expanded.foldl (fun result t =>
    if t ∈ result.map pyUpper then result else result ++ [t]) tags

theorem foldl_extends_left {α β : Type} (step : List α → β → List α)
    (hstep : ∀ acc x, acc <+: step acc x) :
    ∀ (l : List β) (acc : List α), acc <+: l.foldl step acc := by
  intro l
  induction l with
  | nil => exact fun acc => List.prefix_rfl
  | cons x xs ih =>
    intro acc
    exact (hstep acc x).trans (ih (step acc x))

/-- C6: expand_equipment_tags_with_aliases returns a list that starts
with exactly the input tags in their original order, for every database
state, tag list and scope; in particular expanding a single tag yields a
list whose first element is that tag. -/
theorem expand_tags_preserves_originals (db : TagDb) (project_id : Option Nat) :
    (∀ tags : List String,
      tags <+: expand_equipment_tags_with_aliases db tags project_id) ∧
    (∀ t : String,
      (expand_equipment_tags_with_aliases db [t] project_id).head? = some t) := by
  have hmain : ∀ tags : List String,
      tags <+: expand_equipment_tags_with_aliases db tags project_id := by
    intro tags
    unfold expand_equipment_tags_with_aliases
    apply foldl_extends_left
    intro acc x
    dsimp only
    split
    · exact List.prefix_rfl
    · exact ⟨[x], rfl⟩
  refine ⟨hmain, fun t => ?_⟩
  obtain ⟨rest, hrest⟩ := hmain [t]
  rw [← hrest]
  rfl

/-! ### Aggregation invariants -/

/-- Key invariant of the aggregation state: retained results carry
pairwise distinct dedup keys, and every retained key is recorded in
existing_keys. -/
def keysOk (st : AggState) : Prop :=
  st.allResults.Pairwise (fun a b => dedupKey a ≠ dedupKey b) ∧
  ∀ r ∈ st.allResults, dedupKey r ∈ st.existingKeys

theorem keysOk_initial : keysOk initialAggState :=
  ⟨List.Pairwise.nil, by intro r hr; cases hr⟩

theorem add_result_keysOk (m : Nat) (st : AggState) (r : SearchResult)
    (skip : Bool) (h : keysOk st) : keysOk (add_result m st r skip).1 := by
  unfold add_result
  dsimp only
  split
  · exact h
  · split
    · exact h
    · rename_i hkey _
      constructor
      · rw [List.pairwise_append]
        refine ⟨h.1, List.pairwise_singleton _ _, ?_⟩
        intro a ha b hb
        rw [List.mem_singleton] at hb
        subst hb
        intro hEq
        exact hkey (hEq ▸ h.2 a ha)
      · intro x hx
        rw [List.mem_append] at hx
        rcases hx with hx | hx
        · exact List.mem_cons_of_mem _ (h.2 x hx)
        · rw [List.mem_singleton] at hx
          subst hx
          exact List.mem_cons_self _ _

theorem typeStep_keysOk (m : Nat) (acc : AggState × List String)
    (r : SearchResult) (h : keysOk acc.1) : keysOk (typeStep m acc r).1 := by
  unfold typeStep
  split
  · split
    · exact add_result_keysOk m acc.1 r true h
    · exact add_result_keysOk m acc.1 r false h
  · exact add_result_keysOk m acc.1 r false h

theorem addTypeResults_keysOk (m : Nat) (l : List SearchResult) (st : AggState)
    (h : keysOk st) : keysOk (addTypeResults m l st).1 := by
  unfold addTypeResults
  suffices hgen : ∀ (acc : AggState × List String), keysOk acc.1 →
      keysOk (l.foldl (typeStep m) acc).1 from hgen (st, []) h
  induction l with
  | nil => exact fun acc hacc => hacc
  | cons x xs ih =>
    intro acc hacc
    exact ih _ (typeStep_keysOk m acc x hacc)

theorem addAll_keysOk (m : Nat) (l : List SearchResult) (st : AggState)
    (h : keysOk st) : keysOk (addAll m l st) := by
  unfold addAll
  induction l generalizing st with
  | nil => exact h
  | cons x xs ih =>
    exact ih _ (add_result_keysOk m st x false h)

theorem addAll_keysOk_if (m : Nat) (l : List SearchResult) (c : Prop)
    [Decidable c] (st : AggState) (h : keysOk st) :
    keysOk (if c then addAll m l st else st) := by
  split
  · exact addAll_keysOk m l st h
  · exact h

theorem searchAggregate_keysOk (tags : List String) (dtype : Option String)
    (src : SourceResults) (m : Nat) :
    keysOk (searchAggregate tags dtype src m).1 := by
  unfold searchAggregate
  dsimp only
  apply addAll_keysOk_if
  apply addAll_keysOk
  apply addAll_keysOk
  apply addAll_keysOk
  apply addAll_keysOk_if
  apply addAll_keysOk_if
  split
  · dsimp only
    exact addTypeResults_keysOk m _ _ keysOk_initial
  · exact keysOk_initial

theorem dedupKey_rescore (query : String) (qt : QueryType) (tags : List String)
    (r : SearchResult) : dedupKey (rescoreResult query qt tags r) = dedupKey r := rfl

/-- C4: after aggregation no two results retained by SearchService.search
share a deduplication key: the returned result list is pairwise distinct
on dedupKey, for every combination of source results. -/
theorem search_no_duplicate_keys (query : String) (qt : QueryType)
    (tags : List String) (dtype : Option String) (src : SourceResults)
    (limit m : Nat) :
    (search query qt tags dtype src limit m).results.Pairwise
      (fun a b => dedupKey a ≠ dedupKey b) := by
  unfold search
  dsimp only
  apply List.Pairwise.sublist (List.take_sublist _ _)
  have hsym : ∀ {x y : SearchResult},
      dedupKey x ≠ dedupKey y → dedupKey y ≠ dedupKey x :=
    fun h hEq => h hEq.symm
  rw [(List.mergeSort_perm _ _).pairwise_iff hsym]
  apply List.Pairwise.map _ ?_ (searchAggregate_keysOk tags dtype src m).1
  intro a b hab
  rw [dedupKey_rescore, dedupKey_rescore]
  exact hab

/-- The number of results of document d that were not produced by the
equipment-type source; only such results are subject to the
per-document quota (the bypass applies only to equipment-type results). -/
def nonTypeCount (d : Nat) (l : List SearchResult) : Nat :=
  l.countP (fun r => decide (r.documentId = d ∧ r.matchType ≠ "equipment_type_search"))

/-- Quota invariant of the aggregation state for a document d: the
non-equipment-type results of d are bounded by the recorded document
count and by the quota m. -/
def quotaOk (d m : Nat) (st : AggState) : Prop :=
  nonTypeCount d st.allResults ≤ st.documentCounts d ∧
  nonTypeCount d st.allResults ≤ m

theorem quotaOk_initial (d m : Nat) : quotaOk d m initialAggState :=
  ⟨Nat.le_refl 0, Nat.zero_le m⟩

theorem add_result_quotaOk (d m : Nat) (st : AggState) (r : SearchResult)
    (skip : Bool) (hskip : skip = true → r.matchType = "equipment_type_search")
    (h : quotaOk d m st) : quotaOk d m (add_result m st r skip).1 := by
  unfold add_result
  dsimp only
  split
  · exact h
  · split
    · exact h
    · rename_i hkey hcond
      unfold quotaOk nonTypeCount at h ⊢
      dsimp only
      rw [List.countP_append]
      by_cases hp : r.documentId = d ∧ r.matchType ≠ "equipment_type_search"
      · have hskipf : skip = false := by
          cases skip
          · rfl
          · exact absurd (hskip rfl) hp.2
        subst hskipf
        simp only [Bool.not_false, Bool.true_and, decide_eq_true_eq, not_le] at hcond
        have hlt : st.documentCounts d < m := hp.1 ▸ hcond
        have hcnt1 : List.countP
            (fun r => decide (r.documentId = d ∧ r.matchType ≠ "equipment_type_search"))
            [r] = 1 := by
          simp [hp]
        rw [hcnt1, if_pos hp.1.symm]
        omega
      · have hcnt0 : List.countP
            (fun r => decide (r.documentId = d ∧ r.matchType ≠ "equipment_type_search"))
            [r] = 0 := by
          simp only [List.countP_singleton]
          rw [decide_eq_false hp]
          rfl
        rw [hcnt0]
        constructor
        · split <;> omega
        · omega

theorem typeStep_quotaOk (d m : Nat) (acc : AggState × List String)
    (r : SearchResult) (hr : r.matchType = "equipment_type_search")
    (h : quotaOk d m acc.1) : quotaOk d m (typeStep m acc r).1 := by
  unfold typeStep
  split
  · split
    · exact add_result_quotaOk d m acc.1 r true (fun _ => hr) h
    · exact add_result_quotaOk d m acc.1 r false (fun hF => absurd hF Bool.false_ne_true) h
  · exact add_result_quotaOk d m acc.1 r false (fun hF => absurd hF Bool.false_ne_true) h

theorem addTypeResults_quotaOk (d m : Nat) (l : List SearchResult) (st : AggState)
    (htype : ∀ r ∈ l, r.matchType = "equipment_type_search")
    (h : quotaOk d m st) : quotaOk d m (addTypeResults m l st).1 := by
  unfold addTypeResults
  suffices hgen : ∀ (acc : AggState × List String), quotaOk d m acc.1 →
      quotaOk d m (l.foldl (typeStep m) acc).1 from hgen (st, []) h
  induction l with
  | nil => exact fun acc hacc => hacc
  | cons x xs ih =>
    intro acc hacc
    exact ih (fun r hr => htype r (List.mem_cons_of_mem _ hr)) _
      (typeStep_quotaOk d m acc x (htype x (List.mem_cons_self _ _)) hacc)

theorem addAll_quotaOk (d m : Nat) (l : List SearchResult) (st : AggState)
    (h : quotaOk d m st) : quotaOk d m (addAll m l st) := by
  unfold addAll
  induction l generalizing st with
  | nil => exact h
  | cons x xs ih =>
    exact ih _ (add_result_quotaOk d m st x false
      (fun hF => absurd hF Bool.false_ne_true) h)

theorem addAll_quotaOk_if (d m : Nat) (l : List SearchResult) (c : Prop)
    [Decidable c] (st : AggState) (h : quotaOk d m st) :
    quotaOk d m (if c then addAll m l st else st) := by
  split
  · exact addAll_quotaOk d m l st h
  · exact h

theorem searchAggregate_quotaOk (d : Nat) (tags : List String)
    (dtype : Option String) (src : SourceResults) (m : Nat)
    (htype : ∀ r ∈ src.typeResults, r.matchType = "equipment_type_search") :
    quotaOk d m (searchAggregate tags dtype src m).1 := by
  unfold searchAggregate
  dsimp only
  apply addAll_quotaOk_if
  apply addAll_quotaOk
  apply addAll_quotaOk
  apply addAll_quotaOk
  apply addAll_quotaOk_if
  apply addAll_quotaOk_if
  split
  · dsimp only
    exact addTypeResults_quotaOk d m _ _ htype (quotaOk_initial d m)
  · exact quotaOk_initial d m

/-- The total number of retained results of a document d. -/
def docCount (d : Nat) (l : List SearchResult) : Nat :=
  l.countP (fun r => decide (r.documentId = d))

/-- The recorded document count agrees with the retained results. -/
def docCountOk (d : Nat) (st : AggState) : Prop :=
  st.documentCounts d = docCount d st.allResults

theorem docCountOk_initial (d : Nat) : docCountOk d initialAggState := rfl

theorem add_result_docCountOk (d m : Nat) (st : AggState) (r : SearchResult)
    (skip : Bool) (h : docCountOk d st) :
    docCountOk d (add_result m st r skip).1 := by
  unfold add_result
  dsimp only
  split
  · exact h
  · split
    · exact h
    · unfold docCountOk docCount at h ⊢
      dsimp only
      rw [List.countP_append, List.countP_singleton]
      by_cases hd : r.documentId = d
      · subst hd
        simp [h]
      · simp [hd, Ne.symm hd, h]

theorem add_result_docCount_le (d m : Nat) (st : AggState) (r : SearchResult)
    (h : docCountOk d st) :
    docCount d (add_result m st r false).1.allResults
      ≤ max (docCount d st.allResults) m := by
  unfold add_result
  dsimp only
  split
  · exact le_max_left _ _
  · split
    · exact le_max_left _ _
    · rename_i hkey hcond
      simp only [Bool.not_false, Bool.true_and, decide_eq_true_eq, not_le] at hcond
      unfold docCountOk docCount at h
      unfold docCount
      dsimp only
      rw [List.countP_append, List.countP_singleton]
      by_cases hd : r.documentId = d
      · subst hd
        rw [h] at hcond
        simp only [decide_eq_true_eq]
        rw [if_pos trivial]
        omega
      · simp only [decide_eq_false hd, Bool.false_eq_true, if_false, Nat.add_zero]
        exact le_max_left _ _

theorem add_result_docCount_le_succ (d m : Nat) (st : AggState)
    (r : SearchResult) (skip : Bool) :
    docCount d (add_result m st r skip).1.allResults
      ≤ docCount d st.allResults + (if r.documentId = d then 1 else 0) := by
  unfold add_result
  dsimp only
  split
  · exact Nat.le_add_right _ _
  · split
    · exact Nat.le_add_right _ _
    · unfold docCount
      dsimp only
      rw [List.countP_append, List.countP_singleton]
      by_cases hd : r.documentId = d
      · subst hd
        simp
      · simp [hd]

theorem typeStep_docCount (d m : Nat) (acc : AggState × List String)
    (r : SearchResult) (h : docCountOk d acc.1) :
    docCount d (typeStep m acc r).1.allResults
      ≤ max (docCount d acc.1.allResults) m + (if r.documentId = d then 1 else 0)
    ∧ docCountOk d (typeStep m acc r).1 := by
  have hnormal : docCount d (add_result m acc.1 r false).1.allResults
      ≤ max (docCount d acc.1.allResults) m + (if r.documentId = d then 1 else 0) :=
    (add_result_docCount_le d m acc.1 r h).trans (Nat.le_add_right _ _)
  have hbypass : docCount d (add_result m acc.1 r true).1.allResults
      ≤ max (docCount d acc.1.allResults) m + (if r.documentId = d then 1 else 0) := by
    refine (add_result_docCount_le_succ d m acc.1 r true).trans ?_
    exact Nat.add_le_add_right (le_max_left _ _) _
  unfold typeStep
  split
  · split
    · exact ⟨hbypass, add_result_docCountOk d m acc.1 r true h⟩
    · exact ⟨hnormal, add_result_docCountOk d m acc.1 r false h⟩
  · exact ⟨hnormal, add_result_docCountOk d m acc.1 r false h⟩

theorem foldl_typeStep_docCount (d m : Nat) :
    ∀ (l : List SearchResult) (acc : AggState × List String),
    docCountOk d acc.1 →
    docCount d (l.foldl (typeStep m) acc).1.allResults
      ≤ max (docCount d acc.1.allResults) m
        + l.countP (fun r => decide (r.documentId = d))
    ∧ docCountOk d (l.foldl (typeStep m) acc).1 := by
  intro l
  induction l with
  | nil =>
    intro acc h
    refine ⟨?_, h⟩
    simp only [List.foldl_nil, List.countP_nil, Nat.add_zero]
    exact le_max_left _ _
  | cons r rs ih =>
    intro acc h
    obtain ⟨hb, hok⟩ := typeStep_docCount d m acc r h
    obtain ⟨ihb, ihok⟩ := ih (typeStep m acc r) hok
    rw [List.foldl_cons]
    refine ⟨?_, ihok⟩
    refine ihb.trans ?_
    rw [List.countP_cons]
    by_cases hd : r.documentId = d
    · simp only [hd] at hb ⊢
      simp only [if_pos rfl, decide_eq_true_eq] at hb ⊢
      omega
    · simp only [if_neg hd] at hb
      simp only [decide_eq_false hd, Bool.false_eq_true, if_false]
      omega

theorem addAll_docCount (d m : Nat) :
    ∀ (l : List SearchResult) (st : AggState), docCountOk d st →
    docCount d (addAll m l st).allResults ≤ max (docCount d st.allResults) m
    ∧ docCountOk d (addAll m l st) := by
  intro l
  induction l with
  | nil => exact fun st h => ⟨le_max_left _ _, h⟩
  | cons r rs ih =>
    intro st h
    unfold addAll
    rw [List.foldl_cons]
    have hstep := add_result_docCount_le d m st r h
    have hok := add_result_docCountOk d m st r false h
    obtain ⟨ihb, ihok⟩ := ih (add_result m st r false).1 hok
    unfold addAll at ihb ihok
    exact ⟨ihb.trans (by omega), ihok⟩

theorem addAll_docBound (d m bound : Nat) (l : List SearchResult)
    (st : AggState) (hm : m ≤ bound)
    (h : docCount d st.allResults ≤ bound ∧ docCountOk d st) :
    docCount d (addAll m l st).allResults ≤ bound
    ∧ docCountOk d (addAll m l st) := by
  obtain ⟨hb, hok⟩ := addAll_docCount d m l st h.2
  exact ⟨hb.trans (by omega), hok⟩

theorem addAll_docBound_if (d m bound : Nat) (l : List SearchResult)
    (c : Prop) [Decidable c] (st : AggState) (hm : m ≤ bound)
    (h : docCount d st.allResults ≤ bound ∧ docCountOk d st) :
    docCount d (if c then addAll m l st else st).allResults ≤ bound
    ∧ docCountOk d (if c then addAll m l st else st) := by
  split
  · exact addAll_docBound d m bound l st hm h
  · exact h

theorem searchAggregate_docCount (d : Nat) (tags : List String)
    (dtype : Option String) (src : SourceResults) (m : Nat) :
    docCount d (searchAggregate tags dtype src m).1.allResults
      ≤ m + src.typeResults.countP (fun r => decide (r.documentId = d)) := by
  unfold searchAggregate
  dsimp only
  refine (addAll_docBound_if d m _ src.eqDataResults _ _ (Nat.le_add_right _ _) ?_).1
  refine addAll_docBound d m _ src.suppChunkResults _ (Nat.le_add_right _ _) ?_
  refine addAll_docBound d m _ src.keywordResults _ (Nat.le_add_right _ _) ?_
  refine addAll_docBound d m _ src.semanticResults _ (Nat.le_add_right _ _) ?_
  refine addAll_docBound_if d m _ src.textResults _ _ (Nat.le_add_right _ _) ?_
  refine addAll_docBound_if d m _ src.exactResults _ _ (Nat.le_add_right _ _) ?_
  split
  · dsimp only
    unfold addTypeResults
    obtain ⟨hb, hok⟩ := foldl_typeStep_docCount d m src.typeResults
      (initialAggState, []) (docCountOk_initial d)
    refine ⟨hb.trans ?_, hok⟩
    have hzero : docCount d (initialAggState, ([] : List String)).1.allResults = 0 := rfl
    rw [hzero]
    omega
  · exact ⟨Nat.zero_le _, docCountOk_initial d⟩

theorem search_countP_le (query : String) (qt : QueryType)
    (tags : List String) (dtype : Option String) (src : SourceResults)
    (limit m : Nat) (p : SearchResult → Bool)
    (hp : ∀ r, p (rescoreResult query qt (searchAggregate tags dtype src m).2 r)
      = p r) :
    (search query qt tags dtype src limit m).results.countP p
      ≤ (searchAggregate tags dtype src m).1.allResults.countP p := by
  unfold search
  dsimp only
  refine ((List.take_sublist _ _).countP_le p).trans ?_
  rw [(List.mergeSort_perm _ _).countP_eq]
  rw [List.countP_map]
  have heq : ∀ x ∈ (searchAggregate tags dtype src m).1.allResults,
      ((p ∘ rescoreResult query qt (searchAggregate tags dtype src m).2) x = true)
      ↔ (p x = true) := fun x _ => by rw [Function.comp_apply, hp]
  rw [List.countP_congr heq]

/-- C3: for every document id d, the results SearchService.search
returns contain at most max_per_document results of d that did not come
from the equipment-type source, and the total number of results of d
exceeds max_per_document by at most the number of equipment-type source
results of d — only the bypass-eligible equipment-type results can push
a document beyond the quota. The hypothesis records that every result of
the equipment-type source carries match_type "equipment_type_search",
which _search_equipment_by_type always sets. -/
theorem search_per_document_quota (query : String) (qt : QueryType)
    (tags : List String) (dtype : Option String) (src : SourceResults)
    (limit m d : Nat)
    (htype : ∀ r ∈ src.typeResults, r.matchType = "equipment_type_search") :
    (search query qt tags dtype src limit m).results.countP
      (fun r => decide (r.documentId = d ∧ r.matchType ≠ "equipment_type_search"))
      ≤ m ∧
    (search query qt tags dtype src limit m).results.countP
      (fun r => decide (r.documentId = d))
      ≤ m + src.typeResults.countP (fun r => decide (r.documentId = d)) := by
  constructor
  · exact (search_countP_le query qt tags dtype src limit m
      (fun r => decide (r.documentId = d ∧ r.matchType ≠ "equipment_type_search"))
      (fun r => rfl)).trans
      (searchAggregate_quotaOk d tags dtype src m htype).2
  · exact (search_countP_le query qt tags dtype src limit m
      (fun r => decide (r.documentId = d))
      (fun r => rfl)).trans
      (searchAggregate_docCount d tags dtype src m)

/-- A concrete equipment-type source result used by witnesses. -/
def sampleTypeResult : SearchResult :=
  ⟨some ⟨7, "RTU-1", "RTU"⟩, 2, 3, 1, some "Equipment RTU-1 found on this page",
    "equipment_type_search", none⟩

/-- Witness for C3 at a concrete search call. -/
theorem search_per_document_quota_witness :
    (∀ r ∈ (SourceResults.mk [sampleTypeResult] [] [] [] [] [] []).typeResults,
        r.matchType = "equipment_type_search") ∧
    ((search "list all rtus" QueryType.GENERAL [] (some "RTU")
        (SourceResults.mk [sampleTypeResult] [] [] [] [] [] []) 30 5).results.countP
      (fun r => decide (r.documentId = 2 ∧ r.matchType ≠ "equipment_type_search"))
      ≤ 5 ∧
    (search "list all rtus" QueryType.GENERAL [] (some "RTU")
        (SourceResults.mk [sampleTypeResult] [] [] [] [] [] []) 30 5).results.countP
      (fun r => decide (r.documentId = 2))
      ≤ 5 + (SourceResults.mk [sampleTypeResult] [] [] [] [] [] []).typeResults.countP
          (fun r => decide (r.documentId = 2))) :=
  ⟨by decide, search_per_document_quota "list all rtus" QueryType.GENERAL []
    (some "RTU") (SourceResults.mk [sampleTypeResult] [] [] [] [] [] []) 30 5 2
    (by decide)⟩

/-! ### Relevance-score bounds -/

theorem match_type_multiplier_nonneg (mt : String) :
    0 ≤ match_type_multiplier mt := by
  unfold match_type_multiplier
  split_ifs <;> norm_num

theorem calculate_relevance_score_le_two (base : ℚ) (mt query : String)
    (qt : QueryType) (tags : List String) (rtag : Option String)
    (snippet : Option String) (dtype : Option String) :
    calculate_relevance_score base mt query qt tags rtag snippet dtype ≤ 2 := by
  unfold calculate_relevance_score
  dsimp only
  exact min_le_right _ _

theorem applyTagBoost_nonneg (score : ℚ) (rtag : Option String)
    (tags : List String) (h : 0 ≤ score) : 0 ≤ applyTagBoost score rtag tags := by
  unfold applyTagBoost
  split
  · split
    · exact mul_nonneg h (by norm_num)
    · exact h
  · exact h

theorem applyDataBoost_nonneg (score : ℚ) (qt : QueryType)
    (dtype : Option String) (h : 0 ≤ score) : 0 ≤ applyDataBoost score qt dtype := by
  unfold applyDataBoost
  split
  · split
    · exact mul_nonneg h (by norm_num)
    · exact h
  · exact h

theorem applyKeywordBoost_nonneg (score : ℚ) (query : String)
    (snippet : Option String) (h : 0 ≤ score) :
    0 ≤ applyKeywordBoost score query snippet := by
  unfold applyKeywordBoost
  split
  · split
    · dsimp only
      split
      · apply mul_nonneg h
        apply le_min ?_ (by norm_num)
        positivity
      · exact h
    · exact h
  · exact h

theorem applySnippetFactor_nonneg (score : ℚ) (snippet : Option String)
    (h : 0 ≤ score) : 0 ≤ applySnippetFactor score snippet := by
  unfold applySnippetFactor
  split
  · split
    · split
      · exact mul_nonneg h (by norm_num)
      · split
        · exact mul_nonneg h (by norm_num)
        · exact h
    · exact h
  · exact h

theorem calculate_relevance_score_nonneg (base : ℚ) (mt query : String)
    (qt : QueryType) (tags : List String) (rtag : Option String)
    (snippet : Option String) (dtype : Option String) (hbase : 0 ≤ base) :
    0 ≤ calculate_relevance_score base mt query qt tags rtag snippet dtype := by
  unfold calculate_relevance_score
  dsimp only
  apply le_min ?_ (by norm_num)
  apply applySnippetFactor_nonneg
  apply applyKeywordBoost_nonneg
  apply applyDataBoost_nonneg
  apply applyTagBoost_nonneg
  exact mul_nonneg hbase (match_type_multiplier_nonneg mt)

theorem rescoreResult_score (query : String) (qt : QueryType)
    (tags : List String) (r : SearchResult) :
    (rescoreResult query qt tags r).relevanceScore
      = calculate_relevance_score r.relevanceScore r.matchType query qt tags
          (r.equipment.map (·.tag)) r.snippet (extractDataType r) := rfl

/-! ### Provenance of aggregated results -/

/-- Membership of a result in one of the seven source lists handed to
search. -/
def sourceMem (src : SourceResults) (r : SearchResult) : Prop :=
  r ∈ src.typeResults ∨ r ∈ src.exactResults ∨ r ∈ src.textResults ∨
  r ∈ src.semanticResults ∨ r ∈ src.keywordResults ∨
  r ∈ src.suppChunkResults ∨ r ∈ src.eqDataResults

theorem add_result_mem (m : Nat) (st : AggState) (r : SearchResult)
    (skip : Bool) (x : SearchResult)
    (hx : x ∈ (add_result m st r skip).1.allResults) :
    x ∈ st.allResults ∨ x = r := by
  unfold add_result at hx
  dsimp only at hx
  split at hx
  · exact Or.inl hx
  · split at hx
    · exact Or.inl hx
    · dsimp only at hx
      rw [List.mem_append, List.mem_singleton] at hx
      exact hx

theorem addAll_mem (m : Nat) (l : List SearchResult) (st : AggState)
    (x : SearchResult) (hx : x ∈ (addAll m l st).allResults) :
    x ∈ st.allResults ∨ x ∈ l := by
  unfold addAll at hx
  induction l generalizing st with
  | nil => exact Or.inl hx
  | cons y ys ih =>
    rw [List.foldl_cons] at hx
    rcases ih _ hx with h | h
    · rcases add_result_mem m st y false x h with h2 | h2
      · exact Or.inl h2
      · exact Or.inr (h2 ▸ List.mem_cons_self _ _)
    · exact Or.inr (List.mem_cons_of_mem _ h)

theorem typeStep_mem (m : Nat) (acc : AggState × List String)
    (r : SearchResult) (x : SearchResult)
    (hx : x ∈ (typeStep m acc r).1.allResults) :
    x ∈ acc.1.allResults ∨ x = r := by
  unfold typeStep at hx
  split at hx
  · split at hx
    · exact add_result_mem m acc.1 r true x hx
    · exact add_result_mem m acc.1 r false x hx
  · exact add_result_mem m acc.1 r false x hx

theorem foldl_typeStep_mem (m : Nat) (x : SearchResult) :
    ∀ (l : List SearchResult) (acc : AggState × List String),
      x ∈ (l.foldl (typeStep m) acc).1.allResults →
      x ∈ acc.1.allResults ∨ x ∈ l := by
  intro l
  induction l with
  | nil => exact fun acc h => Or.inl h
  | cons y ys ih =>
    intro acc h
    rw [List.foldl_cons] at h
    rcases ih (typeStep m acc y) h with h2 | h2
    · rcases typeStep_mem m acc y x h2 with h3 | h3
      · exact Or.inl h3
      · exact Or.inr (h3 ▸ List.mem_cons_self _ _)
    · exact Or.inr (List.mem_cons_of_mem _ h2)

theorem addTypeResults_mem (m : Nat) (l : List SearchResult) (st : AggState)
    (x : SearchResult) (hx : x ∈ (addTypeResults m l st).1.allResults) :
    x ∈ st.allResults ∨ x ∈ l := by
  unfold addTypeResults at hx
  exact foldl_typeStep_mem m x l (st, []) hx

theorem addAll_if_mem (m : Nat) (l : List SearchResult) (c : Prop)
    [Decidable c] (st : AggState) (x : SearchResult)
    (hx : x ∈ (if c then addAll m l st else st).allResults) :
    x ∈ st.allResults ∨ x ∈ l := by
  split at hx
  · exact addAll_mem m l st x hx
  · exact Or.inl hx

theorem searchAggregate_mem (tags : List String) (dtype : Option String)
    (src : SourceResults) (m : Nat) (x : SearchResult)
    (hx : x ∈ (searchAggregate tags dtype src m).1.allResults) :
    sourceMem src x := by
  unfold searchAggregate at hx
  dsimp only at hx
  unfold sourceMem
  rcases addAll_if_mem _ _ _ _ _ hx with hx | hx
  on_goal 2 => tauto
  rcases addAll_mem _ _ _ _ hx with hx | hx
  on_goal 2 => tauto
  rcases addAll_mem _ _ _ _ hx with hx | hx
  on_goal 2 => tauto
  rcases addAll_mem _ _ _ _ hx with hx | hx
  on_goal 2 => tauto
  rcases addAll_if_mem _ _ _ _ _ hx with hx | hx
  on_goal 2 => tauto
  rcases addAll_if_mem _ _ _ _ _ hx with hx | hx
  on_goal 2 => tauto
  split at hx
  · dsimp only at hx
    rcases addTypeResults_mem _ _ _ _ hx with hx | hx
    · cases hx
    · tauto
  · cases hx

/-- C1 (amended): every relevance score returned by SearchService.search
is at most 2.0 — the enhanced scoring pass caps the score with
min(score, 2.0) — and whenever every source result carries a
nonnegative base score, every returned score lies in [0, 2.0]. The
unconditional lower bound 0 of the original claim fails because the
semantic sources report a cosine similarity that can be negative and
the code applies no lower clamp. -/
theorem search_scores (query : String) (qt : QueryType) (tags : List String)
    (dtype : Option String) (src : SourceResults) (limit m : Nat) :
    (∀ r ∈ (search query qt tags dtype src limit m).results,
      r.relevanceScore ≤ 2) ∧
    ((∀ r, sourceMem src r → 0 ≤ r.relevanceScore) →
      ∀ r ∈ (search query qt tags dtype src limit m).results,
        0 ≤ r.relevanceScore ∧ r.relevanceScore ≤ 2) := by
  have hmem : ∀ r ∈ (search query qt tags dtype src limit m).results,
      ∃ orig ∈ (searchAggregate tags dtype src m).1.allResults,
        r = rescoreResult query qt (searchAggregate tags dtype src m).2 orig := by
    intro r hr
    unfold search at hr
    dsimp only at hr
    have hr2 := (List.take_sublist _ _).subset hr
    rw [List.mem_mergeSort] at hr2
    obtain ⟨orig, horig, heq⟩ := List.mem_map.mp hr2
    exact ⟨orig, horig, heq.symm⟩
  constructor
  · intro r hr
    obtain ⟨orig, _, heq⟩ := hmem r hr
    rw [heq, rescoreResult_score]
    exact calculate_relevance_score_le_two _ _ _ _ _ _ _ _
  · intro hnn r hr
    obtain ⟨orig, horig, heq⟩ := hmem r hr
    rw [heq, rescoreResult_score]
    refine ⟨?_, calculate_relevance_score_le_two _ _ _ _ _ _ _ _⟩
    exact calculate_relevance_score_nonneg _ _ _ _ _ _ _ _
      (hnn orig (searchAggregate_mem tags dtype src m orig horig))

/-- Witness for C1 (amended) at a concrete search call whose single
semantic source result has base score 3/4. -/
theorem search_scores_witness :
    (∀ r, sourceMem (SourceResults.mk [] [] []
        [⟨none, 1, 1, 3/4, none, "semantic", none⟩] [] [] []) r →
        0 ≤ r.relevanceScore) ∧
    (∀ r ∈ (search "q" QueryType.GENERAL [] none
        (SourceResults.mk [] [] [] [⟨none, 1, 1, 3/4, none, "semantic", none⟩]
          [] [] []) 30 5).results,
      0 ≤ r.relevanceScore ∧ r.relevanceScore ≤ 2) := by
  constructor
  · intro r hr
    rcases hr with h | h | h | h | h | h | h <;>
      simp only [List.mem_singleton, List.not_mem_nil] at h
    · rw [h]
      norm_num
  · exact (search_scores "q" QueryType.GENERAL [] none
      (SourceResults.mk [] [] [] [⟨none, 1, 1, 3/4, none, "semantic", none⟩]
        [] [] []) 30 5).2 (by
      intro r hr
      rcases hr with h | h | h | h | h | h | h <;>
        simp only [List.mem_singleton, List.not_mem_nil] at h
      · rw [h]
        norm_num)

/-- A semantic-source result with the negative cosine similarity -1, the
extreme the pgvector cosine-distance operator permits. -/
def sampleSemanticNeg : SearchResult :=
  ⟨none, 1, 1, -1, none, "semantic", none⟩

/-- Counterexample for C1 as stated: a semantic result with negative
cosine-similarity base score is returned by search with a negative
relevance score, violating 0 ≤ relevanceScore. -/
theorem search_scores_counterexample :
    ¬ (∀ r ∈ (search "q" QueryType.GENERAL [] none
        (SourceResults.mk [] [] [] [sampleSemanticNeg] [] [] []) 30 5).results,
        0 ≤ r.relevanceScore ∧ r.relevanceScore ≤ 2) := by
  intro h
  have hagg : (searchAggregate [] none
      (SourceResults.mk [] [] [] [sampleSemanticNeg] [] [] []) 5).1.allResults
      = [sampleSemanticNeg] := by decide
  have htags : (searchAggregate [] none
      (SourceResults.mk [] [] [] [sampleSemanticNeg] [] [] []) 5).2 = [] := by decide
  have hres : (search "q" QueryType.GENERAL [] none
      (SourceResults.mk [] [] [] [sampleSemanticNeg] [] [] []) 30 5).results
      = [rescoreResult "q" QueryType.GENERAL [] sampleSemanticNeg] := by
    unfold search
    dsimp only
    rw [hagg, htags]
    rw [List.map_cons, List.map_nil, List.mergeSort_singleton]
    rfl
  have hneg : (rescoreResult "q" QueryType.GENERAL [] sampleSemanticNeg).relevanceScore
      = -1 := by
    rw [rescoreResult_score]
    show calculate_relevance_score (-1) "semantic" "q" QueryType.GENERAL []
      none none (extractDataType sampleSemanticNeg) = -1
    have hdt : extractDataType sampleSemanticNeg = none := rfl
    rw [hdt]
    have hm : match_type_multiplier "semantic" = 1 := rfl
    unfold calculate_relevance_score applyTagBoost applyDataBoost
      applyKeywordBoost applySnippetFactor
    rw [hm]
    norm_num [min_def]
  have := h (rescoreResult "q" QueryType.GENERAL [] sampleSemanticNeg)
    (by rw [hres]; exact List.mem_singleton_self _)
  rw [hneg] at this
  exact absurd this.1 (by norm_num)

/-! ## GraphService — backend/app/services/graph_service.py -/

/-- A DetailedConnection row as read by GraphService.get_full_power_flow. -/
structure ConnectionRow where
  sourceTag : String
  targetTag : String
  category : String
  connectionType : String
  breaker : Option String
  voltage : Option String
  wireSize : Option String
  load : Option String
  documentId : Option Nat
  pageNumber : Option Nat
deriving Repr, DecidableEq

/-- A node of the power-flow tree (graph_service.py lines 446-456 and
479-489). link carries the feeds field for upstream nodes and the
fed_by field for downstream nodes; both hold the tag the expansion was
sitting on. -/
structure PowerFlowNode where
  tag : String
  link : String
  depth : Nat
  breaker : Option String
  voltage : Option String
  wireSize : Option String
  load : Option String
  documentId : Option Nat
  pageNumber : Option Nat
deriving Repr, DecidableEq

/-- One direction of the BFS loop of get_full_power_flow (lines 431-458
upstream, 464-491 downstream): pop a (tag, depth, parent) entry; skip it
when the tag was visited or depth exceeds max_depth; otherwise emit one
node per ELECTRICAL FEEDS edge touching the tag (matching on target for
upstream, source for downstream), enqueue the other endpoint at
depth + 1, and mark the tag visited. The fuel argument bounds the loop
iterations: the Python loop always terminates because every expansion
consumes a fresh visited tag out of the finitely many connection tags,
and the caller passes fuel exceeding that bound; none marks fuel
exhaustion. -/
def powerFlowBFS (upstream : Bool) (conns : List ConnectionRow)
    (max_depth : Nat) :
    Nat → List (String × Nat × Option String) → List String →
    Option (List PowerFlowNode)
  | _, [], _ => some []
  | 0, _ :: _, _ => none
  | fuel + 1, (current, depth, _parent) :: rest, visited =>
    if current ∈ visited ∨ depth > max_depth then
      powerFlowBFS upstream conns max_depth fuel rest visited
    else
      let feeds := conns.filter (fun c => decide
        ((if upstream then pyUpper c.targetTag = current
          else pyUpper c.sourceTag = current) ∧
         c.category = "ELECTRICAL" ∧ c.connectionType = "FEEDS"))
      let newNodes := feeds.map (fun c =>
        { tag := if upstream then c.sourceTag else c.targetTag
          link := current
          depth := depth + 1
          breaker := c.breaker
          voltage := c.voltage
          wireSize := c.wireSize
          load := c.load
          documentId := c.documentId
          pageNumber := c.pageNumber : PowerFlowNode })
      let newEntries := feeds.map (fun c =>
        (pyUpper (if upstream then c.sourceTag else c.targetTag),
          depth + 1, some current))
      (powerFlowBFS upstream conns max_depth fuel (rest ++ newEntries)
        (current :: visited)).map (fun tail => newNodes ++ tail)

/-- Loop-iteration bound for powerFlowBFS starting from one queue entry:
at most 1 + (number of distinct tags) * (edges per expansion) pops occur,
comfortably below this expression (powerFlowBFS_some proves it
sufficient, so get_full_power_flow never reports fuel exhaustion). -/
def bfsFuel (conns : List ConnectionRow) : Nat :=
  (2 * conns.length + 2) * (conns.length + 2) + 1

/-- The result record of get_full_power_flow restricted to the fields the
source fills (lines 419-425, 493-494). -/
structure PowerFlow where
  equipmentTag : String
  upstream_tree : List PowerFlowNode
  downstream_tree : List PowerFlowNode
  total_upstream : Nat
  total_downstream : Nat
deriving Repr, DecidableEq

/-- GraphService.get_full_power_flow (lines 405-496): two independent
BFS traversals from the upper-cased query tag, upstream over incoming
FEEDS edges and downstream over outgoing ones. -/
def get_full_power_flow (conns : List ConnectionRow) (equipment_tag : String)
    (max_depth : Nat) : Option PowerFlow :=
  let tag_upper := pyUpper equipment_tag
  match powerFlowBFS true conns max_depth (bfsFuel conns) [(tag_upper, 0, none)] [],
        powerFlowBFS false conns max_depth (bfsFuel conns) [(tag_upper, 0, none)] [] with
  | some up, some down =>
    some { equipmentTag := equipment_tag
           upstream_tree := up
           downstream_tree := down
           total_upstream := up.length
           total_downstream := down.length }
  | _, _ => none

theorem powerFlowBFS_depth (upstream : Bool) (conns : List ConnectionRow)
    (maxD : Nat) : ∀ (fuel : Nat)
    (queue : List (String × Nat × Option String)) (visited : List String)
    (nodes : List PowerFlowNode),
    powerFlowBFS upstream conns maxD fuel queue visited = some nodes →
    ∀ n ∈ nodes, 1 ≤ n.depth ∧ n.depth ≤ maxD + 1 := by
  intro fuel
  induction fuel with
  | zero =>
    intro queue visited nodes h n hn
    match queue with
    | [] =>
      rw [powerFlowBFS] at h
      cases h
      cases hn
    | e :: rest =>
      rw [powerFlowBFS] at h
      cases h
  | succ fuel ih =>
    intro queue visited nodes h n hn
    match queue with
    | [] =>
      rw [powerFlowBFS] at h
      cases h
      cases hn
    | (current, depth, parent) :: rest =>
      rw [powerFlowBFS] at h
      split at h
      · exact ih rest visited nodes h n hn
      · rename_i hguard
        dsimp only at h
        rw [Option.map_eq_some'] at h
        obtain ⟨tail, htail, hnodes⟩ := h
        subst hnodes
        rw [List.mem_append] at hn
        rcases hn with hn | hn
        · obtain ⟨c, _, hc⟩ := List.mem_map.mp hn
          have hdepth : depth ≤ maxD := by
            push_neg at hguard
            exact hguard.2
          rw [← hc]
          exact ⟨Nat.le_add_left 1 depth, Nat.succ_le_succ hdepth⟩
        · exact ih _ _ tail htail n hn

/-- The upper-cased tags occurring in the connection rows: every tag the
BFS can enqueue beyond its start lies in this set. -/
def tagUniverse (conns : List ConnectionRow) : Finset String :=
  (conns.map (fun c => pyUpper c.sourceTag)).toFinset ∪
  (conns.map (fun c => pyUpper c.targetTag)).toFinset

/-- Termination measure of the BFS loop: unvisited reachable tags weighted
by the maximal queue growth of one expansion, plus the queue length. -/
def bfsMeasure (conns : List ConnectionRow)
    (queue : List (String × Nat × Option String)) (visited : List String) : Nat :=
  ((tagUniverse conns ∪ (queue.map (·.1)).toFinset) \ visited.toFinset).card
    * (conns.length + 2) + queue.length

theorem bfsMeasure_skip (conns : List ConnectionRow)
    (e : String × Nat × Option String)
    (rest : List (String × Nat × Option String)) (visited : List String) :
    bfsMeasure conns rest visited + 1 ≤ bfsMeasure conns (e :: rest) visited := by
  unfold bfsMeasure
  have hsub : (tagUniverse conns ∪ (rest.map (·.1)).toFinset) \ visited.toFinset
      ⊆ (tagUniverse conns ∪ ((e :: rest).map (·.1)).toFinset) \ visited.toFinset := by
    apply Finset.sdiff_subset_sdiff ?_ (le_refl _)
    apply Finset.union_subset_union_right
    intro x hx
    rw [List.mem_toFinset] at hx ⊢
    exact List.mem_cons_of_mem _ hx
  have hcard := Finset.card_le_card hsub
  have hlen : (e :: rest).length = rest.length + 1 := rfl
  rw [hlen]
  have := Nat.mul_le_mul_right (conns.length + 2) hcard
  omega

theorem bfsMeasure_expand (upstream : Bool) (conns : List ConnectionRow)
    (current : String) (d : Nat) (p : Option String)
    (rest : List (String × Nat × Option String)) (visited : List String)
    (feeds : List ConnectionRow) (hfeeds : feeds ⊆ conns)
    (hflen : feeds.length ≤ conns.length)
    (hcur : current ∉ visited) :
    bfsMeasure conns
        (rest ++ feeds.map (fun c =>
          (pyUpper (if upstream then c.sourceTag else c.targetTag),
            d + 1, some current)))
        (current :: visited) + 1
      ≤ bfsMeasure conns ((current, d, p) :: rest) visited := by
  unfold bfsMeasure
  set K := conns.length + 2 with hK
  set S := (tagUniverse conns ∪ (((current, d, p) :: rest).map (·.1)).toFinset)
    \ visited.toFinset with hS
  set newEntries := feeds.map (fun c =>
    (pyUpper (if upstream then c.sourceTag else c.targetTag), d + 1, some current))
    with hNE
  have hcurS : current ∈ S := by
    rw [hS, Finset.mem_sdiff]
    constructor
    · apply Finset.mem_union_right
      rw [List.mem_toFinset, List.map_cons]
      exact List.mem_cons_self _ _
    · rw [List.mem_toFinset]
      exact hcur
  have hsub : (tagUniverse conns ∪ ((rest ++ newEntries).map (·.1)).toFinset)
      \ (current :: visited).toFinset ⊆ S.erase current := by
    intro x hx
    rw [Finset.mem_sdiff] at hx
    obtain ⟨hx1, hx2⟩ := hx
    rw [List.mem_toFinset, List.mem_cons] at hx2
    push_neg at hx2
    rw [Finset.mem_erase]
    refine ⟨hx2.1, ?_⟩
    rw [hS, Finset.mem_sdiff]
    refine ⟨?_, by rw [List.mem_toFinset]; exact hx2.2⟩
    rcases Finset.mem_union.mp hx1 with hx1 | hx1
    · exact Finset.mem_union_left _ hx1
    · rw [List.mem_toFinset, List.map_append, List.mem_append] at hx1
      rcases hx1 with hx1 | hx1
      · apply Finset.mem_union_right
        rw [List.mem_toFinset, List.map_cons]
        exact List.mem_cons_of_mem _ hx1
      · apply Finset.mem_union_left
        rw [hNE, List.map_map] at hx1
        obtain ⟨c, hc, hcx⟩ := List.mem_map.mp hx1
        dsimp only [Function.comp] at hcx
        have hmem : pyUpper (if upstream then c.sourceTag else c.targetTag)
            ∈ tagUniverse conns := by
          unfold tagUniverse
          cases upstream
          · rw [if_neg Bool.false_ne_true]
            apply Finset.mem_union_right
            rw [List.mem_toFinset]
            exact List.mem_map_of_mem _ (hfeeds hc)
          · rw [if_pos rfl]
            apply Finset.mem_union_left
            rw [List.mem_toFinset]
            exact List.mem_map_of_mem _ (hfeeds hc)
        exact hcx ▸ hmem
  have hcard : ((tagUniverse conns ∪ ((rest ++ newEntries).map (·.1)).toFinset)
      \ (current :: visited).toFinset).card ≤ S.card - 1 := by
    have h1 := Finset.card_le_card hsub
    rw [Finset.card_erase_of_mem hcurS] at h1
    exact h1
  have hSpos : 1 ≤ S.card := Finset.card_pos.mpr ⟨current, hcurS⟩
  have hlen : (rest ++ newEntries).length ≤ rest.length + conns.length := by
    rw [List.length_append, hNE, List.length_map]
    omega
  have hmul : S.card * K = (S.card - 1) * K + K := by
    cases hSc : S.card with
    | zero => omega
    | succ n => simp [Nat.succ_mul]
  have hle := Nat.mul_le_mul_right K hcard
  have hlen2 : (((current, d, p) :: rest)).length = rest.length + 1 := rfl
  rw [hlen2]
  omega

theorem powerFlowBFS_some (upstream : Bool) (conns : List ConnectionRow)
    (maxD : Nat) : ∀ (fuel : Nat)
    (queue : List (String × Nat × Option String)) (visited : List String),
    bfsMeasure conns queue visited ≤ fuel →
    ∃ nodes, powerFlowBFS upstream conns maxD fuel queue visited = some nodes := by
  intro fuel
  induction fuel with
  | zero =>
    intro queue visited h
    match queue with
    | [] => exact ⟨[], by rw [powerFlowBFS]⟩
    | e :: rest =>
      exfalso
      unfold bfsMeasure at h
      simp only [List.length_cons] at h
      omega
  | succ fuel ih =>
    intro queue visited h
    match queue with
    | [] => exact ⟨[], by rw [powerFlowBFS]⟩
    | (current, depth, parent) :: rest =>
      rw [powerFlowBFS]
      split
      · apply ih
        have := bfsMeasure_skip conns (current, depth, parent) rest visited
        omega
      · rename_i hguard
        dsimp only
        have hcur : current ∉ visited := by
          push_neg at hguard
          exact hguard.1
        have hmeas := bfsMeasure_expand upstream conns current depth parent rest
          visited
          (conns.filter (fun c => decide
            ((if upstream then pyUpper c.targetTag = current
              else pyUpper c.sourceTag = current) ∧
             c.category = "ELECTRICAL" ∧ c.connectionType = "FEEDS")))
          ((List.filter_sublist _).subset)
          (List.length_filter_le _ _)
          hcur
        obtain ⟨tail, htail⟩ := ih
          (rest ++ (conns.filter (fun c => decide
            ((if upstream then pyUpper c.targetTag = current
              else pyUpper c.sourceTag = current) ∧
             c.category = "ELECTRICAL" ∧ c.connectionType = "FEEDS"))).map
            (fun c => (pyUpper (if upstream then c.sourceTag else c.targetTag),
              depth + 1, some current)))
          (current :: visited) (by omega)
        exact ⟨_, by rw [htail]; rfl⟩

/-- The power-flow computation never reports fuel exhaustion: bfsFuel
dominates the loop measure, so the embedded get_full_power_flow is
defined on every input, as the source loop is. -/
theorem get_full_power_flow_total (conns : List ConnectionRow)
    (tag : String) (maxD : Nat) :
    ∃ pf, get_full_power_flow conns tag maxD = some pf := by
  have hstart : ∀ t : String, bfsMeasure conns [(t, 0, none)] [] ≤ bfsFuel conns := by
    intro t
    unfold bfsMeasure bfsFuel
    have hcard : ((tagUniverse conns ∪ ([(t, 0, (none : Option String))].map (·.1)).toFinset)
        \ ([] : List String).toFinset).card ≤ 2 * conns.length + 1 := by
      rw [List.toFinset_nil, Finset.sdiff_empty]
      refine (Finset.card_union_le _ _).trans ?_
      have h1 : (tagUniverse conns).card ≤ 2 * conns.length := by
        unfold tagUniverse
        refine (Finset.card_union_le _ _).trans ?_
        have := List.toFinset_card_le (conns.map (fun c => pyUpper c.sourceTag))
        have := List.toFinset_card_le (conns.map (fun c => pyUpper c.targetTag))
        simp only [List.length_map] at *
        omega
      have h2 : (([(t, 0, (none : Option String))].map (·.1)).toFinset).card ≤ 1 := by
        exact (List.toFinset_card_le _).trans (by rfl)
      omega
    have := Nat.mul_le_mul_right (conns.length + 2) hcard
    have hlen : ([((t : String), (0 : Nat), (none : Option String))]).length = 1 := rfl
    rw [hlen]
    nlinarith
  obtain ⟨up, hup⟩ := powerFlowBFS_some true conns maxD (bfsFuel conns)
    [(pyUpper tag, 0, none)] [] (hstart _)
  obtain ⟨down, hdown⟩ := powerFlowBFS_some false conns maxD (bfsFuel conns)
    [(pyUpper tag, 0, none)] [] (hstart _)
  refine ⟨⟨tag, up, down, up.length, down.length⟩, ?_⟩
  unfold get_full_power_flow
  dsimp only
  rw [hup, hdown]

/-- C2 (amended): every node of either tree get_full_power_flow returns
has 1 ≤ depth ≤ maxDepth + 1. The bound maxDepth of the original claim
fails: the guard only stops the expansion of queue entries beyond
max_depth, but expanding an entry at depth = max_depth still emits its
neighbours at depth max_depth + 1
(see power_flow_depth_counterexample). -/
theorem power_flow_depth_bounds (conns : List ConnectionRow) (tag : String)
    (maxD : Nat) (pf : PowerFlow)
    (h : get_full_power_flow conns tag maxD = some pf) :
    ∀ n ∈ pf.upstream_tree ++ pf.downstream_tree,
      1 ≤ n.depth ∧ n.depth ≤ maxD + 1 := by
  intro n hn
  unfold get_full_power_flow at h
  dsimp only at h
  split at h
  · rename_i up down hup hdown
    cases h
    rw [List.mem_append] at hn
    rcases hn with hn | hn
    · exact powerFlowBFS_depth true conns maxD _ _ _ _ hup n hn
    · exact powerFlowBFS_depth false conns maxD _ _ _ _ hdown n hn
  · cases h

/-- The two-edge chain used to refute the depth bound of C2 as stated. -/
def connAB : ConnectionRow :=
  ⟨"A", "B", "ELECTRICAL", "FEEDS", none, none, none, none, none, none⟩

/-- Second edge of the chain. -/
def connBC : ConnectionRow :=
  ⟨"B", "C", "ELECTRICAL", "FEEDS", none, none, none, none, none, none⟩

/-- The power flow computed for the chain A feeds B feeds C from C with
max_depth 1: B is emitted at depth 1 and A at depth 2. -/
def cexPowerFlow : PowerFlow :=
  ⟨"C", [⟨"B", "C", 1, none, none, none, none, none, none⟩,
         ⟨"A", "B", 2, none, none, none, none, none, none⟩], [], 2, 0⟩

/-- Counterexample for C2 as stated: with edges A FEEDS B FEEDS C,
getFullPowerFlow("C", 1) returns an upstream node of depth 2 > 1 — the
node A emitted while expanding the depth-1 entry B. -/
theorem power_flow_depth_counterexample :
    get_full_power_flow [connAB, connBC] "C" 1 = some cexPowerFlow ∧
    ¬ (∀ n ∈ cexPowerFlow.upstream_tree ++ cexPowerFlow.downstream_tree,
        1 ≤ n.depth ∧ n.depth ≤ 1) := by
  constructor
  · decide
  · decide

/-- Witness for C2 (amended) at the counterexample graph. -/
theorem power_flow_depth_bounds_witness :
    get_full_power_flow [connAB, connBC] "C" 1 = some cexPowerFlow ∧
    ∀ n ∈ cexPowerFlow.upstream_tree ++ cexPowerFlow.downstream_tree,
      1 ≤ n.depth ∧ n.depth ≤ 2 :=
  ⟨by decide, power_flow_depth_bounds [connAB, connBC] "C" 1 cexPowerFlow (by decide)⟩

/-- The MDP-1 feeds MCC-1 edge of the C8 scenario. -/
def mdpFeedsMcc : ConnectionRow :=
  ⟨"MDP-1", "MCC-1", "ELECTRICAL", "FEEDS", none, none, none, none, none, none⟩

/-- The MCC-1 feeds VFD-101 edge of the C8 scenario, with breaker BKR-15
and voltage 480V. -/
def mccFeedsVfd : ConnectionRow :=
  ⟨"MCC-1", "VFD-101", "ELECTRICAL", "FEEDS", some "BKR-15", some "480V",
    none, none, none, none⟩

/-- C8: on the graph MDP-1 FEEDS MCC-1, MCC-1 FEEDS VFD-101 (breaker
BKR-15, voltage 480V), getFullPowerFlow("VFD-101", 5) yields exactly the
upstream nodes (MCC-1, depth 1, feeds VFD-101) and (MDP-1, depth 2,
feeds MCC-1) and an empty downstream tree. -/
theorem power_flow_scenario :
    get_full_power_flow [mdpFeedsMcc, mccFeedsVfd] "VFD-101" 5
      = some ⟨"VFD-101",
          [⟨"MCC-1", "VFD-101", 1, some "BKR-15", some "480V", none, none, none, none⟩,
           ⟨"MDP-1", "MCC-1", 2, none, none, none, none, none, none⟩],
          [], 2, 0⟩ := by
  decide

/-! ## MultiAgentSearchService — backend/app/services/multi_agent_search_service.py -/

/-- An AgentSearchResult (search_agents/base.py lines 21-30); the free-form
metadata dict is omitted, no verified code path reads it. -/
structure AgentSearchResult where
  content : String
  sourceType : String
  documentName : String
  pageOrLocation : String
  equipmentTag : Option String
  relevanceScore : ℚ
deriving Repr, DecidableEq

/-- An AgentFinding (search_agents/base.py lines 33-41); the metadata
dict is omitted as above. -/
structure AgentFinding where
  agentName : String
  domain : String
  findings : String
  sources : List AgentSearchResult
  confidence : ℚ
deriving Repr, DecidableEq

/-- The observable outcome of one agent's run inside the map-phase
worker pool: its future completes with a finding, completes with a
raised exception carrying a message, or is still unfinished when the
30-second as_completed window closes. Real elapsed time is abstracted
into this three-valued outcome. -/
inductive AgentOutcome where
  | ok (finding : AgentFinding)
  | exn (message : String)
  | timeout
deriving Repr, DecidableEq

/-- MultiAgentSearchService._map_phase (lines 250-301) over the agents
(name, domain, outcome of running the agent). as_completed(futures,
timeout=30) raises concurrent.futures.TimeoutError when some future has
not completed within the window; that raise happens in the for statement
itself, outside the try/except around future.result, so it escapes
_map_phase (and query, which does not catch it either) — modelled as
Except.error. A future that completed with an exception re-raises inside
future.result(), which the except catches, recording a zero-confidence
AgentFinding carrying the message. The results dict in completion order
is modelled as a list in agent order (the claims proved below do not
depend on the order). The timeout arm of the match is unreachable under
the surrounding guard. -/
def map_phase (agents : List (String × String × AgentOutcome)) :
    Except String (List (String × AgentFinding)) :=
  if agents.any (fun a => a.2.2 = AgentOutcome.timeout) then
    Except.error "concurrent.futures.TimeoutError"
  else
    Except.ok (agents.map (fun a =>
      match a with
      | (name, _domain, AgentOutcome.ok f) => (name, f)
      | (name, domain, AgentOutcome.exn e) =>
        (name, ⟨name, domain, "Agent encountered an error: " ++ e, [], 0⟩)
      | (name, domain, AgentOutcome.timeout) =>
        (name, ⟨name, domain, "Agent encountered an error: ", [], 0⟩)))

/-- C5 (amended): in the map phase, every agent whose run raises an
exception is recorded as a zero-confidence AgentFinding carrying the
error message and the phase completes normally; but as soon as one agent
exceeds the 30-second as_completed window, TimeoutError propagates to
the caller of multiAgentQuery — a timed-out agent is not converted into
a zero-confidence finding as the original claim states
(see map_phase_counterexample). -/
theorem map_phase_spec (agents : List (String × String × AgentOutcome)) :
    ((∀ a ∈ agents, a.2.2 ≠ AgentOutcome.timeout) →
      ∃ findings, map_phase agents = Except.ok findings ∧
        ∀ name domain e, (name, domain, AgentOutcome.exn e) ∈ agents →
          (name, (⟨name, domain, "Agent encountered an error: " ++ e, [], 0⟩ :
            AgentFinding)) ∈ findings) ∧
    ((∃ a ∈ agents, a.2.2 = AgentOutcome.timeout) →
      map_phase agents = Except.error "concurrent.futures.TimeoutError") := by
  constructor
  · intro hnt
    have hany : agents.any (fun a => a.2.2 = AgentOutcome.timeout) = false := by
      rw [List.any_eq_false]
      intro a ha
      simpa using hnt a ha
    refine ⟨agents.map (fun a =>
      match a with
      | (name, _domain, AgentOutcome.ok f) => (name, f)
      | (name, domain, AgentOutcome.exn e) =>
        (name, ⟨name, domain, "Agent encountered an error: " ++ e, [], 0⟩)
      | (name, domain, AgentOutcome.timeout) =>
        (name, ⟨name, domain, "Agent encountered an error: ", [], 0⟩)), ?_, ?_⟩
    · unfold map_phase
      rw [if_neg (by rw [hany]; exact Bool.false_ne_true)]
    · intro name domain e hmem
      exact List.mem_map_of_mem _ hmem
  · intro ⟨a, ha, hto⟩
    have hany : agents.any (fun a => a.2.2 = AgentOutcome.timeout) = true := by
      rw [List.any_eq_true]
      exact ⟨a, ha, by simpa using hto⟩
    unfold map_phase
    rw [if_pos hany]

/-- Counterexample for C5 as stated: a single agent that exceeds the
timeout makes _map_phase raise TimeoutError instead of recording a
zero-confidence finding and completing. -/
theorem map_phase_counterexample :
    map_phase [("equipment_spec", "equipment_spec", AgentOutcome.timeout)]
      = Except.error "concurrent.futures.TimeoutError" := rfl

/-- Witness for C5 (amended): one agent raising an exception is mapped
to the zero-confidence finding carrying its message. -/
theorem map_phase_spec_witness :
    (∀ a ∈ [("io_control", "io_control", AgentOutcome.exn "boom")],
        a.2.2 ≠ AgentOutcome.timeout) ∧
    (∃ findings,
      map_phase [("io_control", "io_control", AgentOutcome.exn "boom")]
        = Except.ok findings ∧
      ∀ name domain e,
        (name, domain, AgentOutcome.exn e)
          ∈ [("io_control", "io_control", AgentOutcome.exn "boom")] →
        (name, (⟨name, domain, "Agent encountered an error: " ++ e, [], 0⟩ :
          AgentFinding)) ∈ findings) :=
  ⟨by decide,
    (map_phase_spec [("io_control", "io_control", AgentOutcome.exn "boom")]).1
      (by decide)⟩

/-! ## RerankerService — backend/app/services/reranker_service.py -/

/-- RerankerService.rerank (reranker_service.py lines 62-118), with the
lazily-loaded cross-encoder abstracted: model is none when _load_model
failed (sentence_transformers unavailable or erroring), in which case
the source logs and returns results[:top_k] if top_k else results.
The model-present branch runs floating-point cross-encoder inference
(predict, sigmoid combination, re-sort) and is passed in as a function;
none of the verified claims concerns it. top_k is tested for Python
truthiness, so both None and 0 yield the whole list. -/
def rerank
    (model : Option (String → List SearchResult → Option Nat → List SearchResult))
    (query : String) (results : List SearchResult) (top_k : Option Nat) :
    List SearchResult :=
  if results = [] then results
  else
    match model with
    | none =>
      match top_k with
      | some k => if k ≠ 0 then results.take k else results
      | none => results
    | some rerankWithModel => rerankWithModel query results top_k

/-- C9 (amended): when the reranking model is unavailable, rerank never
raises (it is total) and returns the input results with order and scores
untouched, truncated to the first top_k elements when top_k is truthy;
with top_k null (or 0, or at least the input length) the input is
returned exactly. The original claim's "unchanged for every top_k" fails
when top_k is smaller than the input length
(see rerank_counterexample). -/
theorem rerank_unavailable (query : String) (results : List SearchResult)
    (top_k : Option Nat) :
    (rerank none query results top_k) <+: results ∧
    (top_k = none ∨ top_k = some 0 → rerank none query results top_k = results) ∧
    (∀ k, top_k = some k → results.length ≤ k →
      rerank none query results top_k = results) := by
  unfold rerank
  split
  · exact ⟨List.prefix_rfl, fun _ => rfl, fun _ _ _ => rfl⟩
  · match top_k with
    | none => exact ⟨List.prefix_rfl, fun _ => rfl, by intro k hk; cases hk⟩
    | some k =>
      refine ⟨?_, ?_, ?_⟩
      · dsimp only
        split
        · exact ⟨results.drop k, List.take_append_drop k results⟩
        · exact List.prefix_rfl
      · intro h
        rcases h with h | h
        · cases h
        · cases h
          simp
      · intro k' hk' hlen
        cases hk'
        dsimp only
        split
        · exact List.take_of_length_le hlen
        · rfl

/-- Counterexample for C9 as stated: with the model unavailable and
top_k = 1, rerank truncates a two-element input instead of returning it
unchanged. -/
theorem rerank_counterexample :
    rerank none "q" [sampleTypeResult, sampleSemanticNeg] (some 1)
      ≠ [sampleTypeResult, sampleSemanticNeg] := by
  decide

/-- Witness for C9 (amended): with top_k null the input comes back
exactly. -/
theorem rerank_unavailable_witness :
    rerank none "q" [sampleTypeResult] none = [sampleTypeResult] :=
  (rerank_unavailable "q" [sampleTypeResult] none).2.1 (Or.inl rfl)

end ElectricRag
